import Mathlib


/-! ## Definitions: the shallow embedding of the program -/

structure RGBA where
  r : Nat
  g : Nat
  b : Nat
  a : Nat
deriving DecidableEq, Repr

instance : Inhabited RGBA := ⟨⟨0, 0, 0, 0⟩⟩

def get_pixel_index (pixel_x pixel_y image_width : Nat) : Nat :=
  pixel_y * image_width + pixel_x

def insert_pixels (buf : List RGBA) (pos : Nat) (pixels : List RGBA) : List RGBA × Nat :=
  (buf.take pos ++ pixels ++ buf.drop pos, pixels.length)

def resizeIter (w ts nw : Nat) (st : List RGBA × Nat) (i : Nat) : List RGBA × Nat :=
  let pixel_x := i % w
  if pixel_x = 0 then
    let row := i / w
    let st2 :=
      if row % ts = 0 then
        if i = 0 then
          let r := insert_pixels st.1 (i + st.2) (List.replicate (nw - 1) default)
          (r.1, st.2 + r.2)
        else
          let r := insert_pixels st.1 (i + st.2) (List.replicate (nw * 2) default)
          (r.1, st.2 + r.2)
      else st
    let r := insert_pixels st2.1 (i + st2.2) (List.replicate 2 default)
    (r.1, st2.2 + r.2)
  else if pixel_x % ts = 0 then
    let r := insert_pixels st.1 (i + st.2) (List.replicate 2 default)
    (r.1, st.2 + r.2)
  else st

def resizePass (w ts : Nat) (buf : List RGBA) : List RGBA × Nat :=
  let nw := w + (w / ts) * 2
  let st := (List.range buf.length).foldl (resizeIter w ts nw) (buf, 0)
  let r := insert_pixels st.1 st.1.length (List.replicate (nw + 1) default)
  (r.1, st.2 + r.2)

def insertBlanksAt (buf : List RGBA) (pos count : Nat) : List RGBA :=
  buf.take pos ++ List.replicate count (RGBA.mk 0 0 0 0) ++ buf.drop pos

def claimInsertCount (w ts nw i : Nat) : Nat :=
  (if i = 0 then nw - 1 else 0) +
    (if i % w = 0 ∧ i ≠ 0 ∧ (i / w) % ts = 0 then nw * 2 else 0) +
    (if i % w = 0 then 2 else 0) +
    (if i % w ≠ 0 ∧ (i % w) % ts = 0 then 2 else 0)

def resizePassSpec (w ts : Nat) (buf : List RGBA) : List RGBA × Nat :=
  let nw := w + (w / ts) * 2
  let st := (List.range buf.length).foldl
    (fun st i =>
      (insertBlanksAt st.1 (i + st.2) (claimInsertCount w ts nw i),
        st.2 + claimInsertCount w ts nw i))
    (buf, 0)
  (st.1 ++ List.replicate (nw + 1) (RGBA.mk 0 0 0 0), st.2 + (nw + 1))

def natPixels (n : Nat) : List RGBA :=
  (List.range n).map fun k => ⟨k, 0, 0, 0⟩

def opOf (ts w tr tc ty tx : Nat) : Nat × Option Nat :=
  let stride := ts + 2
  let tpm := stride - 1
  let pixel_y := ty + tr * stride
  let pixel_x := tx + tc * stride
  let from_i : Option Nat :=
    if ty = 0 then
      if tx = 0 then some (get_pixel_index (pixel_x + 1) (pixel_y + 1) w)
      else if tx = tpm then some (get_pixel_index (pixel_x - 1) (pixel_y + 1) w)
      else some (get_pixel_index pixel_x (pixel_y + 1) w)
    else if ty = tpm then
      if tx = 0 then some (get_pixel_index (pixel_x + 1) (pixel_y - 1) w)
      else if tx = tpm then some (get_pixel_index (pixel_x - 1) (pixel_y - 1) w)
      else some (get_pixel_index pixel_x (pixel_y - 1) w)
    else
      if tx = 0 then some (get_pixel_index (pixel_x + 1) pixel_y w)
      else if tx = tpm then some (get_pixel_index (pixel_x - 1) pixel_y w)
      else none
  (get_pixel_index pixel_x pixel_y w, from_i)

def applyOp (buf : List RGBA) (op : Nat × Option Nat) : List RGBA :=
  match op.2 with
  | some from_i => buf.set op.1 (buf.getD from_i default)
  | none => buf

def extrudePixel (w ts : Nat) (buf : List RGBA) (tr tc ty tx : Nat) : List RGBA :=
  applyOp buf (opOf ts w tr tc ty tx)

def extrudeTile (w ts tr tc : Nat) (buf : List RGBA) : List RGBA :=
  (List.range (ts + 2)).foldl
    (fun b ty =>
      (List.range (ts + 2)).foldl (fun b2 tx => extrudePixel w ts b2 tr tc ty tx) b)
    buf

def extrudePass (w ts rows cols : Nat) (buf : List RGBA) : List RGBA :=
  (List.range rows).foldl
    (fun b tr => (List.range cols).foldl (fun b2 tc => extrudeTile w ts tr tc b2) b)
    buf

def tileOps (ts w tr tc : Nat) : List (Nat × Option Nat) :=
  (List.range (ts + 2)).flatMap fun ty =>
    (List.range (ts + 2)).map fun tx => opOf ts w tr tc ty tx

def tilePairs (rows cols : Nat) : List (Nat × Nat) :=
  (List.range rows).flatMap fun tr => (List.range cols).map fun tc => (tr, tc)

def localSource (ts ty tx : Nat) : Option (Nat × Nat) :=
  let tpm := ts + 1
  if ty = 0 then
    if tx = 0 then some (1, 1)
    else if tx = tpm then some (1, tpm - 1)
    else some (1, tx)
  else if ty = tpm then
    if tx = 0 then some (tpm - 1, 1)
    else if tx = tpm then some (tpm - 1, tpm - 1)
    else some (tpm - 1, tx)
  else
    if tx = 0 then some (ty, 1)
    else if tx = tpm then some (ty, tpm - 1)
    else none

def lastWrite (S : List (Nat × Option Nat)) (j : Nat) : Option Nat :=
  S.foldl
    (fun acc op =>
      match op.2 with
      | some f => if op.1 = j then some f else acc
      | none => acc)
    none

def opTargets (op : Nat × Option Nat) : List Nat :=
  op.1 :: op.2.toList

def resizeChecked (w h ts : Nat) (buf : List RGBA) : Option (List RGBA × Nat × Nat) :=
  let columns := w / ts
  let rows := h / ts
  let new_width := w + columns * 2
  let new_height := h + rows * 2
  let to_insert := new_width * rows * 2 + rows * ts * columns * 2
  let r := resizePass w ts buf
  if r.2 = to_insert ∧ r.1.length % new_width = 0 ∧ new_height = r.1.length / new_width then
    some (r.1, new_width, new_height)
  else
    none

def process_buffer (ts w h : Nat) (buf : List RGBA) : Option (List RGBA) :=
  if ts = 0 then none
  else
    match resizeChecked w h ts buf with
    | none => none
    | some (b2, nw, _) => some (extrudePass nw ts (h / ts) (w / ts) b2)

structure Config where
  tile_size : Nat
  output_suffix : String
  make_backup : Bool
  input_paths : List String
deriving DecidableEq, Repr

inductive ArgsKey where
  | Default
  | TileSize
  | OutputSuffix
deriving DecidableEq, Repr

def startsDashDash (s : String) : Bool :=
  match s.data with
  | '-' :: '-' :: _ => true
  | _ => false

def dropDashDash (s : String) : String :=
  String.mk (s.data.drop 2)

def charDigit (c : Char) : Option Nat :=
  if 48 ≤ c.toNat ∧ c.toNat ≤ 57 then some (c.toNat - 48) else none

def digitsToNat : List Char → Option Nat → Option Nat
  | [], acc => acc
  | c :: rest, acc =>
      match charDigit c, acc with
      | some d, some n => digitsToNat rest (some (n * 10 + d))
      | some d, none => digitsToNat rest (some d)
      | none, _ => none

def parse_usize (s : String) : Option Nat :=
  match s.data with
  | [] => none
  | l => digitsToNat l none

def emptyString : String := ""

def keyTileSize : String := "tile-size"

def keyOutputSuffix : String := "output-suffix"

def errParse : String := "invalid digit found in string (after --tile--size)"

def errExpectedAnother : String := "Expected another argument"

def errNoPaths : String := "No file paths specified"

def errNoTileSize : String := "No tile size specified (use --tile-size)"

def parseArgsLoop : List String → Option Nat → String → List String → ArgsKey →
    Except String (Option Nat × String × List String × ArgsKey)
  | [], ts, suf, paths, key => Except.ok (ts, suf, paths, key)
  | arg :: rest, ts, suf, paths, key =>
    match key with
    | ArgsKey.TileSize =>
        match parse_usize arg with
        | some n => parseArgsLoop rest (some n) suf paths ArgsKey.Default
        | none => Except.error errParse
    | ArgsKey.OutputSuffix => parseArgsLoop rest ts arg paths ArgsKey.Default
    | ArgsKey.Default =>
        if startsDashDash arg then
          if dropDashDash arg = keyTileSize then
            parseArgsLoop rest ts suf paths ArgsKey.TileSize
          else if dropDashDash arg = keyOutputSuffix then
            parseArgsLoop rest ts suf paths ArgsKey.OutputSuffix
          else
            parseArgsLoop rest ts suf paths ArgsKey.Default
        else
          parseArgsLoop rest ts suf (paths ++ [arg]) ArgsKey.Default

def parse_args (args : List String) : Except String Config :=
  match parseArgsLoop args none emptyString [] ArgsKey.Default with
  | Except.error e => Except.error e
  | Except.ok (ts, suf, paths, key) =>
    if key ≠ ArgsKey.Default then
      Except.error errExpectedAnother
    else if paths = [] then
      Except.error errNoPaths
    else
      match ts with
      | some t => Except.ok ⟨t, suf, decide (suf = emptyString), paths⟩
      | none => Except.error errNoTileSize

def main_loop (n : Nat) (runOne : Nat → Except String Unit) : List Nat × List String :=
  (List.range n).foldl
    (fun acc i =>
      (acc.1 ++ [i],
        match runOne i with
        | Except.error e => acc.2 ++ [e]
        | Except.ok _ => acc.2))
    ([], [])

/-! ## Theorems -/

theorem default_rgba : (default : RGBA) = RGBA.mk 0 0 0 0 := rfl

theorem take_append_of_length_eq {α : Type} (l₁ l₂ : List α) (n : Nat)
    (h : l₁.length = n) : (l₁ ++ l₂).take n = l₁ := by
  subst h
  exact List.take_left l₁ l₂

theorem drop_append_of_length_eq {α : Type} (l₁ l₂ : List α) (n : Nat)
    (h : l₁.length = n) : (l₁ ++ l₂).drop n = l₂ := by
  subst h
  exact List.drop_left l₁ l₂

theorem take_append_add_of_length_eq {α : Type} (l₁ l₂ : List α) (n i : Nat)
    (h : l₁.length = n) : (l₁ ++ l₂).take (n + i) = l₁ ++ l₂.take i := by
  subst h
  exact List.take_append i

theorem drop_append_add_of_length_eq {α : Type} (l₁ l₂ : List α) (n i : Nat)
    (h : l₁.length = n) : (l₁ ++ l₂).drop (n + i) = l₂.drop i := by
  subst h
  exact List.drop_append i

theorem insertBlanksAt_zero (buf : List RGBA) (pos : Nat) :
    insertBlanksAt buf pos 0 = buf := by
  simp [insertBlanksAt]

theorem length_insertBlanksAt (buf : List RGBA) (pos count : Nat) :
    (insertBlanksAt buf pos count).length = buf.length + count := by
  simp [insertBlanksAt]
  omega

theorem insertBlanksAt_insertBlanksAt (buf : List RGBA) (pos a b : Nat) :
    insertBlanksAt (insertBlanksAt buf pos a) (pos + a) b =
      insertBlanksAt buf pos (a + b) := by
  unfold insertBlanksAt
  rcases Nat.le_total pos buf.length with h | h
  · have hlen : (buf.take pos ++ List.replicate a (RGBA.mk 0 0 0 0)).length = pos + a := by
      simp [Nat.min_eq_left h]
    rw [show buf.take pos ++ List.replicate a (RGBA.mk 0 0 0 0) ++ buf.drop pos
          = (buf.take pos ++ List.replicate a (RGBA.mk 0 0 0 0)) ++ buf.drop pos from rfl]
    rw [take_append_of_length_eq _ _ _ hlen, drop_append_of_length_eq _ _ _ hlen]
    rw [List.replicate_add]
    simp only [List.append_assoc]
  · have h1 : buf.take pos = buf := List.take_of_length_le h
    have h2 : buf.drop pos = [] := List.drop_of_length_le h
    rw [h1, h2]
    have h3 : (buf ++ List.replicate a (RGBA.mk 0 0 0 0) ++ []).length ≤ pos + a := by
      simp
      omega
    rw [List.take_of_length_le h3, List.drop_of_length_le h3]
    rw [List.replicate_add]
    simp only [List.append_assoc, List.append_nil]

theorem insert_pixels_replicate (buf : List RGBA) (pos c : Nat) :
    insert_pixels buf pos (List.replicate c default) = (insertBlanksAt buf pos c, c) := by
  unfold insert_pixels insertBlanksAt
  rw [List.length_replicate, default_rgba]

theorem insert_pixels_pair_fst (buf : List RGBA) (pos : Nat) :
    (insert_pixels buf pos [default, default]).1 = insertBlanksAt buf pos 2 := by
  unfold insert_pixels insertBlanksAt
  rw [default_rgba]
  rfl

theorem insert_pixels_pair_snd (buf : List RGBA) (pos : Nat) :
    (insert_pixels buf pos [default, default]).2 = 2 := rfl

theorem resizeIter_eq_spec (w ts nw : Nat) (st : List RGBA × Nat) (i : Nat) :
    resizeIter w ts nw st i =
      (insertBlanksAt st.1 (i + st.2) (claimInsertCount w ts nw i),
        st.2 + claimInsertCount w ts nw i) := by
  by_cases hx : i % w = 0
  · by_cases hr : (i / w) % ts = 0
    · by_cases hi : i = 0
      · subst hi
        simp [resizeIter, claimInsertCount, insert_pixels_replicate,
          insert_pixels_pair_fst, insert_pixels_pair_snd]
        have hmerge := insertBlanksAt_insertBlanksAt st.1 st.2 (nw - 1) 2
        constructor
        · rw [← hmerge]
        · omega
      · simp [resizeIter, claimInsertCount, insert_pixels_replicate, hx, hr, hi,
          insert_pixels_pair_fst, insert_pixels_pair_snd]
        have hmerge := insertBlanksAt_insertBlanksAt st.1 (i + st.2) (nw * 2) 2
        rw [show i + st.2 + nw * 2 = i + (st.2 + nw * 2) by omega] at hmerge
        constructor
        · rw [← hmerge]
        · omega
    · have hi : i ≠ 0 := by
        intro h
        subst h
        simp at hr
      simp [resizeIter, claimInsertCount, insert_pixels_replicate, hx, hr, hi,
        insert_pixels_pair_fst, insert_pixels_pair_snd]
  · have hi : i ≠ 0 := by
      intro h
      subst h
      simp at hx
    by_cases hm : (i % w) % ts = 0
    · simp [resizeIter, claimInsertCount, insert_pixels_replicate, hx, hm, hi,
        insert_pixels_pair_fst, insert_pixels_pair_snd]
    · simp [resizeIter, claimInsertCount, insert_pixels_replicate, hx, hm, hi,
        insertBlanksAt_zero]

theorem claim3_resize_insertion_pattern (w ts : Nat) (buf : List RGBA) :
    resizePass w ts buf = resizePassSpec w ts buf := by
  simp only [resizePass, resizePassSpec]
  have hfun : resizeIter w ts (w + w / ts * 2) =
      (fun st i =>
        (insertBlanksAt st.1 (i + st.2) (claimInsertCount w ts (w + w / ts * 2) i),
          st.2 + claimInsertCount w ts (w + w / ts * 2) i)) := by
    funext st i
    exact resizeIter_eq_spec w ts (w + w / ts * 2) st i
  rw [hfun]
  simp only [insert_pixels_replicate, insert_pixels, List.length_replicate, default_rgba]
  congr 1
  rw [List.take_length, List.drop_length]
  simp

theorem sum_map_range_add (f : Nat → Nat) (a b : Nat) :
    ((List.range (a + b)).map f).sum =
      ((List.range a).map f).sum + ((List.range b).map (fun x => f (a + x))).sum := by
  induction b with
  | zero => simp
  | succ b ih =>
      rw [show a + (b + 1) = (a + b) + 1 by omega, List.range_succ, List.map_append,
        List.sum_append, ih, List.range_succ, List.map_append, List.sum_append]
      simp
      omega

theorem sum_map_range_if_zero (A n : Nat) :
    ((List.range n).map (fun x => if x = 0 then A else 0)).sum =
      if n = 0 then 0 else A := by
  induction n with
  | zero => simp
  | succ n ih =>
      rw [List.range_succ, List.map_append, List.sum_append, ih]
      by_cases h : n = 0
      · subst h
        simp
      · simp [h]

theorem sum_map_range_const (c n : Nat) :
    ((List.range n).map (fun _ => c)).sum = n * c := by
  induction n with
  | zero => simp
  | succ n ih =>
      rw [List.range_succ, List.map_append, List.sum_append, ih]
      simp
      ring

theorem count_multiples_sum (ts A : Nat) (hts : 1 ≤ ts) (m : Nat) :
    ((List.range (m * ts)).map (fun x => if x ≠ 0 ∧ x % ts = 0 then A else 0)).sum =
      (m - 1) * A := by
  induction m with
  | zero => simp
  | succ m ih =>
      rw [show (m + 1) * ts = m * ts + ts by ring, sum_map_range_add, ih]
      have hblock :
          ((List.range ts).map (fun x => if m * ts + x ≠ 0 ∧ (m * ts + x) % ts = 0 then A else 0)).sum
            = if m = 0 then 0 else A := by
        have hcong :
            (List.range ts).map (fun x => if m * ts + x ≠ 0 ∧ (m * ts + x) % ts = 0 then A else 0)
              = (List.range ts).map (fun x => if x = 0 ∧ m ≠ 0 then A else 0) := by
          apply List.map_congr_left
          intro x hx
          rw [List.mem_range] at hx
          have h1 : (m * ts + x) % ts = x := by
            rw [Nat.mul_comm m ts, Nat.mul_add_mod]
            exact Nat.mod_eq_of_lt hx
          have h2 : m * ts + x = 0 ↔ (m = 0 ∧ x = 0) := by
            constructor
            · intro h
              have hx0 : x = 0 := by omega
              subst hx0
              have := Nat.mul_eq_zero.mp (by omega : m * ts = 0)
              exact ⟨by omega, rfl⟩
            · rintro ⟨h3, h4⟩
              subst h3
              subst h4
              simp
          by_cases hx0 : x = 0
          · subst hx0
            by_cases hm0 : m = 0
            · simp [h1, h2, hm0]
            · have hne : ¬(m * ts + 0 = 0) := by
                rw [h2]
                simp [hm0]
              simp [h1, hne, hm0, show ¬ts = 0 by omega]
          · simp [h1, hx0]
        rw [hcong]
        by_cases hm0 : m = 0
        · subst hm0
          apply List.sum_eq_zero
          intro y hy
          rw [List.mem_map] at hy
          obtain ⟨x, _, rfl⟩ := hy
          simp
        · have hcong2 :
              (List.range ts).map (fun x => if x = 0 ∧ m ≠ 0 then A else 0)
                = (List.range ts).map (fun x => if x = 0 then A else 0) := by
            apply List.map_congr_left
            intro x _
            simp [hm0]
          rw [hcong2, sum_map_range_if_zero]
          simp [show ¬ts = 0 by omega, hm0]
      rw [hblock]
      by_cases hm0 : m = 0
      · subst hm0
        simp
      · obtain ⟨k, rfl⟩ : ∃ k, m = k + 1 := ⟨m - 1, by omega⟩
        simp
        ring

theorem claimInsertCount_decompose (w ts nw r x : Nat) (hw : 0 < w) (hx : x < w) :
    claimInsertCount w ts nw (r * w + x) =
      (if x = 0 then
        (if r = 0 then nw - 1 else 0) + (if r ≠ 0 ∧ r % ts = 0 then nw * 2 else 0) + 2
      else 0) +
        (if x ≠ 0 ∧ x % ts = 0 then 2 else 0) := by
  have hmod : (r * w + x) % w = x := by
    rw [Nat.mul_comm r w, Nat.mul_add_mod]
    exact Nat.mod_eq_of_lt hx
  have hdiv : (r * w + x) / w = r := by
    rw [Nat.mul_comm r w, Nat.mul_add_div hw, Nat.div_eq_of_lt hx]
    omega
  have hzero : r * w + x = 0 ↔ (r = 0 ∧ x = 0) := by
    constructor
    · intro h
      have hx0 : x = 0 := by omega
      subst hx0
      have := Nat.mul_eq_zero.mp (by omega : r * w = 0)
      exact ⟨by omega, rfl⟩
    · rintro ⟨h1, h2⟩
      subst h1
      subst h2
      simp
  unfold claimInsertCount
  rw [hmod, hdiv]
  have hwne : ¬w = 0 := by omega
  by_cases hx0 : x = 0
  · subst hx0
    by_cases hr0 : r = 0
    · subst hr0
      simp [hzero, hwne]
    · by_cases hrt : r % ts = 0
      · simp [hzero, hr0, hrt, hwne]
      · simp [hzero, hr0, hrt, hwne]
  · have hne : ¬(r * w + x = 0) := by
      rw [hzero]
      intro h
      exact hx0 h.2
    by_cases hxt : x % ts = 0
    · simp [hzero, hx0, hxt, hwne]
    · simp [hzero, hx0, hxt, hwne]

theorem claimInsertCount_row_sum (ts nw cols r : Nat) (hts : 1 ≤ ts) (hcols : 1 ≤ cols) :
    ((List.range (cols * ts)).map (fun x => claimInsertCount (cols * ts) ts nw (r * (cols * ts) + x))).sum =
      ((if r = 0 then nw - 1 else 0) + (if r ≠ 0 ∧ r % ts = 0 then nw * 2 else 0) + 2)
        + (cols - 1) * 2 := by
  have hw0 : 0 < cols * ts := Nat.mul_pos (by omega) (by omega)
  have hcong :
      (List.range (cols * ts)).map
          (fun x => claimInsertCount (cols * ts) ts nw (r * (cols * ts) + x))
        = (List.range (cols * ts)).map
          (fun x =>
            (if x = 0 then
              (if r = 0 then nw - 1 else 0) + (if r ≠ 0 ∧ r % ts = 0 then nw * 2 else 0) + 2
            else 0) +
              (if x ≠ 0 ∧ x % ts = 0 then 2 else 0)) := by
    apply List.map_congr_left
    intro x hx
    rw [List.mem_range] at hx
    exact claimInsertCount_decompose (cols * ts) ts nw r x hw0 hx
  rw [hcong, List.sum_map_add, sum_map_range_if_zero, count_multiples_sum ts 2 hts cols]
  simp [show ¬cols * ts = 0 by omega]

theorem sum_map_range_blocks (f : Nat → Nat) (w : Nat) (n : Nat) :
    ((List.range (w * n)).map f).sum =
      ((List.range n).map (fun r => ((List.range w).map (fun x => f (r * w + x))).sum)).sum := by
  induction n with
  | zero => simp
  | succ n ih =>
      rw [show w * (n + 1) = w * n + w by ring, sum_map_range_add, ih,
        List.range_succ, List.map_append, List.sum_append]
      have : (fun x => f (w * n + x)) = (fun x => f (n * w + x)) := by
        funext x
        rw [Nat.mul_comm]
      rw [this]
      simp

theorem claimInsertCount_total (ts nw cols rows : Nat)
    (hts : 1 ≤ ts) (hcols : 1 ≤ cols) (hrows : 1 ≤ rows) :
    ((List.range ((cols * ts) * (rows * ts))).map (claimInsertCount (cols * ts) ts nw)).sum =
      (nw - 1) + (rows - 1) * (nw * 2) + (rows * ts) * 2 + (rows * ts) * ((cols - 1) * 2) := by
  rw [sum_map_range_blocks]
  have hcong :
      (List.range (rows * ts)).map
          (fun r => ((List.range (cols * ts)).map
            (fun x => claimInsertCount (cols * ts) ts nw (r * (cols * ts) + x))).sum)
        = (List.range (rows * ts)).map
          (fun r =>
            ((if r = 0 then nw - 1 else 0) + (if r ≠ 0 ∧ r % ts = 0 then nw * 2 else 0) + 2)
              + (cols - 1) * 2) := by
    apply List.map_congr_left
    intro r _
    exact claimInsertCount_row_sum ts nw cols r hts hcols
  rw [hcong]
  have hsplit :
      ((List.range (rows * ts)).map
          (fun r =>
            ((if r = 0 then nw - 1 else 0) + (if r ≠ 0 ∧ r % ts = 0 then nw * 2 else 0) + 2)
              + (cols - 1) * 2)).sum
        = ((List.range (rows * ts)).map (fun r => if r = 0 then nw - 1 else 0)).sum
            + ((List.range (rows * ts)).map (fun r => if r ≠ 0 ∧ r % ts = 0 then nw * 2 else 0)).sum
            + ((List.range (rows * ts)).map (fun _ => 2)).sum
            + ((List.range (rows * ts)).map (fun _ => (cols - 1) * 2)).sum := by
    rw [← List.sum_map_add, ← List.sum_map_add, ← List.sum_map_add]
  rw [hsplit, sum_map_range_if_zero, count_multiples_sum ts (nw * 2) hts rows,
    sum_map_range_const, sum_map_range_const]
  simp [show ¬rows * ts = 0 by positivity]

theorem resize_fold_stats (w ts nw : Nat) (n : Nat) (b : List RGBA) (k : Nat) :
    ((List.range n).foldl (resizeIter w ts nw) (b, k)).2 =
        k + ((List.range n).map (claimInsertCount w ts nw)).sum ∧
      (((List.range n).foldl (resizeIter w ts nw) (b, k)).1).length =
        b.length + ((List.range n).map (claimInsertCount w ts nw)).sum := by
  induction n with
  | zero => simp
  | succ n ih =>
      rw [List.range_succ, List.foldl_append, List.foldl_cons, List.foldl_nil,
        resizeIter_eq_spec, List.map_append, List.sum_append]
      obtain ⟨ih1, ih2⟩ := ih
      constructor
      · simp only [ih1]
        simp
        omega
      · simp only [length_insertBlanksAt, ih2]
        simp
        omega

theorem claim2_resize_length_invariant (ts cols rows : Nat) (buf : List RGBA)
    (hts : 1 ≤ ts) (hcols : 1 ≤ cols) (hrows : 1 ≤ rows)
    (hlen : buf.length = (cols * ts) * (rows * ts)) :
    (resizePass (cols * ts) ts buf).2 =
        (cols * ts + cols * 2) * rows * 2 + rows * ts * cols * 2 ∧
      (resizePass (cols * ts) ts buf).1.length % (cols * ts + cols * 2) = 0 ∧
      (resizePass (cols * ts) ts buf).1.length =
        (cols * ts + cols * 2) * (rows * ts + rows * 2) := by
  have hdiv : cols * ts / ts = cols := Nat.mul_div_left cols (by omega)
  obtain ⟨c2, rfl⟩ : ∃ c2, cols = c2 + 1 := ⟨cols - 1, by omega⟩
  obtain ⟨r2, rfl⟩ : ∃ r2, rows = r2 + 1 := ⟨rows - 1, by omega⟩
  have hnw : (c2 + 1) * ts + (c2 + 1) * 2 - 1 = c2 * ts + ts + c2 * 2 + 1 := by
    have e1 : (c2 + 1) * ts = c2 * ts + ts := by ring
    have e2 : (c2 + 1) * 2 = c2 * 2 + 2 := by ring
    omega
  simp only [resizePass, hdiv, insert_pixels_replicate, length_insertBlanksAt]
  obtain ⟨h1, h2⟩ := resize_fold_stats ((c2 + 1) * ts) ts ((c2 + 1) * ts + (c2 + 1) * 2)
    buf.length buf 0
  rw [hlen] at h1 h2
  rw [claimInsertCount_total ts ((c2 + 1) * ts + (c2 + 1) * 2) (c2 + 1) (r2 + 1)
    hts (by omega) (by omega)] at h1 h2
  rw [hlen, h1, h2]
  simp only [Nat.add_sub_cancel, hnw]
  have hc :
      ((c2 + 1) * ts) * ((r2 + 1) * ts) +
          ((c2 * ts + ts + c2 * 2 + 1) + r2 * (((c2 + 1) * ts + (c2 + 1) * 2) * 2) +
            ((r2 + 1) * ts) * 2 + ((r2 + 1) * ts) * (c2 * 2)) +
          ((c2 + 1) * ts + (c2 + 1) * 2 + 1) =
        ((c2 + 1) * ts + (c2 + 1) * 2) * ((r2 + 1) * ts + (r2 + 1) * 2) := by
    ring
  refine ⟨by ring, ?_, hc⟩
  rw [hc]
  exact Nat.mul_mod_right _ _

theorem gpi_congr (a a' b b' w : Nat) (ha : a = a') (hb : b = b') :
    get_pixel_index a b w = get_pixel_index a' b' w := by
  rw [ha, hb]

theorem opOf_eq (ts w tr tc ty tx : Nat) :
    opOf ts w tr tc ty tx =
      (get_pixel_index (tx + tc * (ts + 2)) (ty + tr * (ts + 2)) w,
        (localSource ts ty tx).map fun s =>
          get_pixel_index (s.2 + tc * (ts + 2)) (s.1 + tr * (ts + 2)) w) := by
  have htpm : ts + 2 - 1 = ts + 1 := rfl
  simp only [opOf, localSource, htpm]
  by_cases h0 : ty = 0
  · subst h0
    by_cases h1 : tx = 0
    · subst h1
      simp only [if_pos rfl]
      exact Prod.ext rfl (congrArg some (gpi_congr _ _ _ _ _ (by omega) (by omega)))
    · by_cases h2 : tx = ts + 1
      · subst h2
        simp [h1]
        exact gpi_congr _ _ _ _ _ (by omega) (by omega)
      · simp [h1, h2]
        exact gpi_congr _ _ _ _ _ (by omega) (by omega)
  · by_cases hy : ty = ts + 1
    · subst hy
      by_cases h1 : tx = 0
      · subst h1
        simp [h0]
        exact gpi_congr _ _ _ _ _ (by omega) (by omega)
      · by_cases h2 : tx = ts + 1
        · subst h2
          simp [h0, h1]
        · simp [h0, h1, h2]
    · by_cases h1 : tx = 0
      · subst h1
        simp [h0, hy]
        exact gpi_congr _ _ _ _ _ (by omega) (by omega)
      · by_cases h2 : tx = ts + 1
        · subst h2
          simp [h0, hy, h1]
        · simp [h0, hy, h1, h2]

theorem getD_set_ne (l : List RGBA) (i j : Nat) (a : RGBA) (h : i ≠ j) :
    (l.set i a).getD j default = l.getD j default := by
  rw [List.getD_eq_getElem?_getD, List.getD_eq_getElem?_getD, List.getElem?_set_ne h]

theorem getD_set_self (l : List RGBA) (i : Nat) (a : RGBA) (h : i < l.length) :
    (l.set i a).getD i default = a := by
  rw [List.getD_eq_getElem?_getD, List.getElem?_set_self h]
  rfl

theorem foldl_flatMap {α β γ : Type} (f : β → α → β) (g : γ → List α) (l : List γ) (b : β) :
    (l.flatMap g).foldl f b = l.foldl (fun acc c => (g c).foldl f acc) b := by
  induction l generalizing b with
  | nil => rfl
  | cons c l ih => simp [List.foldl_append, ih]

theorem extrudeTile_eq_foldl (w ts tr tc : Nat) (buf : List RGBA) :
    extrudeTile w ts tr tc buf = (tileOps ts w tr tc).foldl applyOp buf := by
  unfold extrudeTile tileOps
  rw [foldl_flatMap]
  congr 1
  funext b ty
  rw [List.foldl_map]
  rfl

theorem extrudePass_eq_foldl_tiles (w ts rows cols : Nat) (buf : List RGBA) :
    extrudePass w ts rows cols buf =
      (tilePairs rows cols).foldl (fun b p => extrudeTile w ts p.1 p.2 b) buf := by
  unfold extrudePass tilePairs
  rw [foldl_flatMap]
  congr 1
  funext b tr
  rw [List.foldl_map]

theorem length_applyOp (b : List RGBA) (op : Nat × Option Nat) :
    (applyOp b op).length = b.length := by
  unfold applyOp
  cases op.2 <;> simp

theorem length_foldl_applyOp (S : List (Nat × Option Nat)) (b : List RGBA) :
    (S.foldl applyOp b).length = b.length := by
  induction S generalizing b with
  | nil => rfl
  | cons op S ih => rw [List.foldl_cons, ih, length_applyOp]

theorem foldl_applyOp_frame (S : List (Nat × Option Nat)) (b : List RGBA) (j : Nat)
    (h : ∀ op ∈ S, ∀ f, op.2 = some f → op.1 ≠ j) :
    (S.foldl applyOp b).getD j default = b.getD j default := by
  induction S generalizing b with
  | nil => rfl
  | cons op S ih =>
      rw [List.foldl_cons, ih _ (fun op' hop' => h op' (List.mem_cons_of_mem _ hop'))]
      unfold applyOp
      cases hop : op.2 with
      | none => rfl
      | some f => exact getD_set_ne _ _ _ _ (h op (List.mem_cons_self _ _) f hop)

theorem lastWrite_append_one (S : List (Nat × Option Nat)) (op : Nat × Option Nat) (j : Nat) :
    lastWrite (S ++ [op]) j =
      match op.2 with
      | some f => if op.1 = j then some f else lastWrite S j
      | none => lastWrite S j := by
  unfold lastWrite
  rw [List.foldl_append]
  rfl

theorem lastWrite_eq_none (S : List (Nat × Option Nat)) (j : Nat)
    (h : ∀ op ∈ S, ∀ f, op.2 = some f → op.1 ≠ j) :
    lastWrite S j = none := by
  induction S using List.reverseRecOn with
  | nil => rfl
  | append_singleton S op ih =>
      rw [lastWrite_append_one]
      cases hop : op.2 with
      | none => exact ih fun op' hop' => h op' (List.mem_append_left _ hop')
      | some f =>
          have hne : op.1 ≠ j := h op (List.mem_append_right _ (by simp)) f hop
          dsimp only
          rw [if_neg hne]
          exact ih fun op' hop' => h op' (List.mem_append_left _ hop')

theorem lastWrite_eq_some (S : List (Nat × Option Nat)) (j f : Nat)
    (hmem : (j, some f) ∈ S)
    (huniq : ∀ op ∈ S, ∀ g, op.2 = some g → op.1 = j → op = (j, some f)) :
    lastWrite S j = some f := by
  induction S using List.reverseRecOn with
  | nil => cases hmem
  | append_singleton S op ih =>
      rw [lastWrite_append_one]
      by_cases hop : op = (j, some f)
      · subst hop
        simp
      · have hmem' : (j, some f) ∈ S := by
          rcases List.mem_append.mp hmem with h | h
          · exact h
          · simp at h
            exact absurd h.symm hop
        have ihok := ih hmem'
          (fun op' hop' g hg he => huniq op' (List.mem_append_left _ hop') g hg he)
        cases hop2 : op.2 with
        | none => exact ihok
        | some g =>
            have hne : op.1 ≠ j := by
              intro he
              exact hop (huniq op (List.mem_append_right _ (by simp)) g hop2 he)
            dsimp only
            rw [if_neg hne]
            exact ihok

theorem foldl_applyOp_lastWrite (S : List (Nat × Option Nat)) (b : List RGBA) (j f : Nat)
    (hj : j < b.length) (hlw : lastWrite S j = some f)
    (hsrc : ∀ op ∈ S, ∀ g, op.2 = some g → ∀ op' ∈ S, ∀ g', op'.2 = some g' → op'.1 ≠ g) :
    (S.foldl applyOp b).getD j default = b.getD f default := by
  induction S using List.reverseRecOn with
  | nil => cases hlw
  | append_singleton S op ih =>
      rw [List.foldl_append, List.foldl_cons, List.foldl_nil]
      rw [lastWrite_append_one] at hlw
      cases hop : op.2 with
      | none =>
          rw [hop] at hlw
          simp only [applyOp, hop]
          exact ih hlw
            (fun op1 h1 g1 hg1 op2 h2 g2 hg2 =>
              hsrc op1 (List.mem_append_left _ h1) g1 hg1 op2 (List.mem_append_left _ h2) g2 hg2)
      | some g =>
          rw [hop] at hlw
          dsimp only at hlw
          by_cases he : op.1 = j
          · rw [if_pos he] at hlw
            injection hlw with hgf
            subst hgf
            simp only [applyOp, hop]
            rw [he, getD_set_self _ _ _ (by rw [length_foldl_applyOp]; exact hj)]
            apply foldl_applyOp_frame
            intro op' hop' g' hg'
            exact hsrc op (List.mem_append_right _ (by simp)) g hop
              op' (List.mem_append_left _ hop') g' hg'
          · rw [if_neg he] at hlw
            simp only [applyOp, hop]
            rw [getD_set_ne _ _ _ _ he]
            exact ih hlw
              (fun op1 h1 g1 hg1 op2 h2 g2 hg2 =>
                hsrc op1 (List.mem_append_left _ h1) g1 hg1 op2 (List.mem_append_left _ h2) g2 hg2)

theorem euclid_pair_unique {w x x' y y' : Nat} (hx : x < w) (hx' : x' < w)
    (h : y * w + x = y' * w + x') : y = y' ∧ x = x' := by
  rw [Nat.mul_comm y w, Nat.mul_comm y' w] at h
  have h1 : (w * y + x) % w = x := by
    rw [Nat.mul_add_mod]
    exact Nat.mod_eq_of_lt hx
  have h2 : (w * y' + x') % w = x' := by
    rw [Nat.mul_add_mod]
    exact Nat.mod_eq_of_lt hx'
  have hxe : x = x' := by
    rw [← h1, ← h2, h]
  have hye : y = y' := by
    have hw : 0 < w := by omega
    have : w * y = w * y' := by omega
    exact Nat.eq_of_mul_eq_mul_left hw this
  exact ⟨hye, hxe⟩

theorem local_coord_unique {s t t' l l' : Nat} (hl : l < s) (hl' : l' < s)
    (h : l + t * s = l' + t' * s) : t = t' ∧ l = l' := by
  rw [Nat.add_comm l (t * s), Nat.add_comm l' (t' * s)] at h
  obtain ⟨h1, h2⟩ := euclid_pair_unique hl hl' h
  exact ⟨h1, h2⟩

theorem local_lt_width {ts w cols tc tx : Nat} (hcw : cols * (ts + 2) ≤ w)
    (htc : tc < cols) (htx : tx < ts + 2) : tx + tc * (ts + 2) < w := by
  have he : (tc + 1) * (ts + 2) = tc * (ts + 2) + (ts + 2) := by ring
  have h1 : tx + tc * (ts + 2) < (tc + 1) * (ts + 2) := by omega
  have h2 : (tc + 1) * (ts + 2) ≤ cols * (ts + 2) := Nat.mul_le_mul_right _ htc
  omega

theorem target_coords_unique {ts w cols : Nat} (hcw : cols * (ts + 2) ≤ w)
    {tr tc ty tx tr' tc' ty' tx' : Nat}
    (htc : tc < cols) (hty : ty < ts + 2) (htx : tx < ts + 2)
    (htc' : tc' < cols) (hty' : ty' < ts + 2) (htx' : tx' < ts + 2)
    (h : get_pixel_index (tx + tc * (ts + 2)) (ty + tr * (ts + 2)) w =
        get_pixel_index (tx' + tc' * (ts + 2)) (ty' + tr' * (ts + 2)) w) :
    tr = tr' ∧ tc = tc' ∧ ty = ty' ∧ tx = tx' := by
  have hxw : tx + tc * (ts + 2) < w := local_lt_width hcw htc htx
  have hxw' : tx' + tc' * (ts + 2) < w := local_lt_width hcw htc' htx'
  unfold get_pixel_index at h
  obtain ⟨hy, hx⟩ := euclid_pair_unique hxw hxw' h
  obtain ⟨h1, h2⟩ := local_coord_unique hty hty' hy
  obtain ⟨h3, h4⟩ := local_coord_unique htx htx' hx
  exact ⟨h1, h3, h2, h4⟩

theorem localSource_bounds {ts ty tx sy sx : Nat} (hty : ty < ts + 2) (htx : tx < ts + 2)
    (h : localSource ts ty tx = some (sy, sx)) : sy < ts + 2 ∧ sx < ts + 2 := by
  simp only [localSource] at h
  split_ifs at h <;> simp [Prod.ext_iff] at h <;> omega

theorem localSource_interior {ts ty tx sy sx : Nat} (hts : 1 ≤ ts)
    (hty : ty < ts + 2) (htx : tx < ts + 2)
    (h : localSource ts ty tx = some (sy, sx)) :
    1 ≤ sy ∧ sy ≤ ts ∧ 1 ≤ sx ∧ sx ≤ ts := by
  simp only [localSource] at h
  split_ifs at h <;> simp [Prod.ext_iff] at h <;> omega

theorem localSource_eq_none {ts ty tx : Nat} (h1 : 1 ≤ ty) (h2 : ty ≤ ts)
    (h3 : 1 ≤ tx) (h4 : tx ≤ ts) : localSource ts ty tx = none := by
  simp [localSource, show ¬ty = 0 by omega, show ¬ty = ts + 1 by omega,
    show ¬tx = 0 by omega, show ¬tx = ts + 1 by omega]

theorem mem_tilePairs {rows cols : Nat} {p : Nat × Nat} :
    p ∈ tilePairs rows cols ↔ p.1 < rows ∧ p.2 < cols := by
  unfold tilePairs
  simp only [List.mem_flatMap, List.mem_map, List.mem_range]
  constructor
  · rintro ⟨tr, h1, tc, h2, rfl⟩
    exact ⟨h1, h2⟩
  · rintro ⟨h1, h2⟩
    exact ⟨p.1, h1, p.2, h2, rfl⟩

theorem mem_tileOps_elim {ts w tr tc : Nat} {op : Nat × Option Nat}
    (h : op ∈ tileOps ts w tr tc) :
    ∃ ty tx, ty < ts + 2 ∧ tx < ts + 2 ∧ op = opOf ts w tr tc ty tx := by
  unfold tileOps at h
  simp only [List.mem_flatMap, List.mem_map, List.mem_range] at h
  obtain ⟨ty, hty, tx, htx, rfl⟩ := h
  exact ⟨ty, tx, hty, htx, rfl⟩

theorem opOf_mem_tileOps {ts w tr tc ty tx : Nat} (hty : ty < ts + 2) (htx : tx < ts + 2) :
    opOf ts w tr tc ty tx ∈ tileOps ts w tr tc := by
  unfold tileOps
  simp only [List.mem_flatMap, List.mem_map, List.mem_range]
  exact ⟨ty, hty, tx, htx, rfl⟩

theorem tilePairs_nodup (rows cols : Nat) : (tilePairs rows cols).Nodup := by
  unfold tilePairs
  rw [List.nodup_flatMap]
  constructor
  · intro tr _
    exact List.Nodup.map (fun a b hab => (Prod.mk.injEq _ _ _ _).mp hab |>.2)
      (List.nodup_range _)
  · have hlt := List.pairwise_lt_range rows
    apply hlt.imp
    intro tr tr' hne
    intro p hp hp'
    rw [List.mem_map] at hp hp'
    obtain ⟨a, _, rfl⟩ := hp
    obtain ⟨b, _, hzb⟩ := hp'
    have := (Prod.mk.injEq _ _ _ _).mp hzb
    omega

theorem exists_split_of_mem_nodup {α : Type} {l : List α} {a : α}
    (hmem : a ∈ l) (hnd : l.Nodup) : ∃ s t, l = s ++ a :: t ∧ a ∉ s ∧ a ∉ t := by
  obtain ⟨s, t, rfl⟩ := List.append_of_mem hmem
  rw [List.nodup_append] at hnd
  obtain ⟨h1, h2, h3⟩ := hnd
  rw [List.nodup_cons] at h2
  refine ⟨s, t, rfl, ?_, h2.1⟩
  intro ha
  exact h3 ha (List.mem_cons_self _ _)

theorem local_lt_region {s cols tc tx : Nat} (htc : tc < cols) (htx : tx < s) :
    tx + tc * s < cols * s := by
  have he : (tc + 1) * s = tc * s + s := by ring
  have h2 : (tc + 1) * s ≤ cols * s := Nat.mul_le_mul_right _ htc
  omega

theorem local_mod {s tc tx : Nat} (htx : tx < s) : (tx + tc * s) % s = tx := by
  rw [Nat.add_mul_mod_self_right]
  exact Nat.mod_eq_of_lt htx

theorem length_extrudeTile (w ts tr tc : Nat) (buf : List RGBA) :
    (extrudeTile w ts tr tc buf).length = buf.length := by
  rw [extrudeTile_eq_foldl, length_foldl_applyOp]

theorem length_extrudePass (w ts rows cols : Nat) (buf : List RGBA) :
    (extrudePass w ts rows cols buf).length = buf.length := by
  rw [extrudePass_eq_foldl_tiles]
  induction (tilePairs rows cols) generalizing buf with
  | nil => rfl
  | cons p L ih => rw [List.foldl_cons, ih, length_extrudeTile]

theorem extrudeTile_frame (w ts tr tc : Nat) (buf : List RGBA) (j : Nat)
    (h : ∀ ty tx, ty < ts + 2 → tx < ts + 2 →
      ∀ f, (opOf ts w tr tc ty tx).2 = some f → (opOf ts w tr tc ty tx).1 ≠ j) :
    (extrudeTile w ts tr tc buf).getD j default = buf.getD j default := by
  rw [extrudeTile_eq_foldl]
  apply foldl_applyOp_frame
  intro op hop f hf
  obtain ⟨ty, tx, hty, htx, rfl⟩ := mem_tileOps_elim hop
  exact h ty tx hty htx f hf

theorem extrudeTile_frame_other {w ts cols tr tc tr' tc' : Nat} (b : List RGBA)
    (hcw : cols * (ts + 2) ≤ w) (htc : tc < cols) (htc' : tc' < cols)
    (hne : ¬(tr' = tr ∧ tc' = tc))
    {ly lx : Nat} (hly : ly < ts + 2) (hlx : lx < ts + 2) :
    (extrudeTile w ts tr' tc' b).getD
        (get_pixel_index (lx + tc * (ts + 2)) (ly + tr * (ts + 2)) w) default =
      b.getD (get_pixel_index (lx + tc * (ts + 2)) (ly + tr * (ts + 2)) w) default := by
  apply extrudeTile_frame
  intro ty tx hty htx f hf
  rw [opOf_eq]
  dsimp only
  intro htarget
  obtain ⟨h1, h2, _, _⟩ := target_coords_unique hcw htc' hty htx htc hly hlx htarget
  exact hne ⟨h1, h2⟩

theorem length_foldl_tiles (w ts : Nat) (L : List (Nat × Nat)) (b : List RGBA) :
    (L.foldl (fun bb p => extrudeTile w ts p.1 p.2 bb) b).length = b.length := by
  induction L generalizing b with
  | nil => rfl
  | cons p L ih => rw [List.foldl_cons, ih, length_extrudeTile]

theorem foldl_tiles_frame {w ts cols tr tc : Nat} (L : List (Nat × Nat)) (b : List RGBA)
    (hcw : cols * (ts + 2) ≤ w) (htc : tc < cols)
    (hL : ∀ p ∈ L, p.2 < cols ∧ ¬(p.1 = tr ∧ p.2 = tc))
    {ly lx : Nat} (hly : ly < ts + 2) (hlx : lx < ts + 2) :
    (L.foldl (fun bb p => extrudeTile w ts p.1 p.2 bb) b).getD
        (get_pixel_index (lx + tc * (ts + 2)) (ly + tr * (ts + 2)) w) default =
      b.getD (get_pixel_index (lx + tc * (ts + 2)) (ly + tr * (ts + 2)) w) default := by
  induction L generalizing b with
  | nil => rfl
  | cons p L ih =>
      rw [List.foldl_cons, ih _ (fun q hq => hL q (List.mem_cons_of_mem _ hq))]
      exact extrudeTile_frame_other b hcw htc (hL p (List.mem_cons_self _ _)).1
        (hL p (List.mem_cons_self _ _)).2 hly hlx

theorem extrudePass_getD_eq_tile {w ts rows cols tr tc : Nat} (buf : List RGBA)
    (hcw : cols * (ts + 2) ≤ w) (htr : tr < rows) (htc : tc < cols)
    {ly lx : Nat} (hly : ly < ts + 2) (hlx : lx < ts + 2) :
    ∃ bmid : List RGBA,
      bmid.length = buf.length ∧
        (∀ ly' lx', ly' < ts + 2 → lx' < ts + 2 →
          bmid.getD (get_pixel_index (lx' + tc * (ts + 2)) (ly' + tr * (ts + 2)) w) default =
            buf.getD (get_pixel_index (lx' + tc * (ts + 2)) (ly' + tr * (ts + 2)) w) default) ∧
        (extrudePass w ts rows cols buf).getD
            (get_pixel_index (lx + tc * (ts + 2)) (ly + tr * (ts + 2)) w) default =
          (extrudeTile w ts tr tc bmid).getD
            (get_pixel_index (lx + tc * (ts + 2)) (ly + tr * (ts + 2)) w) default := by
  have hmem : (tr, tc) ∈ tilePairs rows cols := mem_tilePairs.mpr ⟨htr, htc⟩
  obtain ⟨A, B, hsplit, hA, hB⟩ := exists_split_of_mem_nodup hmem (tilePairs_nodup rows cols)
  have hmemA : ∀ p ∈ A, p.2 < cols ∧ ¬(p.1 = tr ∧ p.2 = tc) := by
    intro p hp
    have hp2 : p ∈ tilePairs rows cols := by
      rw [hsplit]
      exact List.mem_append_left _ hp
    refine ⟨(mem_tilePairs.mp hp2).2, ?_⟩
    rintro ⟨h1, h2⟩
    apply hA
    have hpe : p = (tr, tc) := by
      rw [Prod.ext_iff]
      exact ⟨h1, h2⟩
    rw [← hpe]
    exact hp
  have hmemB : ∀ p ∈ B, p.2 < cols ∧ ¬(p.1 = tr ∧ p.2 = tc) := by
    intro p hp
    have hp2 : p ∈ tilePairs rows cols := by
      rw [hsplit]
      exact List.mem_append_right _ (List.mem_cons_of_mem _ hp)
    refine ⟨(mem_tilePairs.mp hp2).2, ?_⟩
    rintro ⟨h1, h2⟩
    apply hB
    have hpe : p = (tr, tc) := by
      rw [Prod.ext_iff]
      exact ⟨h1, h2⟩
    rw [← hpe]
    exact hp
  refine ⟨A.foldl (fun bb p => extrudeTile w ts p.1 p.2 bb) buf, ?_, ?_, ?_⟩
  · exact length_foldl_tiles w ts A buf
  · intro ly' lx' h1 h2
    exact foldl_tiles_frame A buf hcw htc hmemA h1 h2
  · rw [extrudePass_eq_foldl_tiles, hsplit, List.foldl_append, List.foldl_cons]
    exact foldl_tiles_frame B _ hcw htc hmemB hly hlx

theorem extrudeTile_gutter {w ts cols tr tc ty tx sy sx : Nat} (buf : List RGBA)
    (hts : 1 ≤ ts) (hcw : cols * (ts + 2) ≤ w) (htc : tc < cols)
    (hty : ty < ts + 2) (htx : tx < ts + 2)
    (hls : localSource ts ty tx = some (sy, sx))
    (hj : get_pixel_index (tx + tc * (ts + 2)) (ty + tr * (ts + 2)) w < buf.length) :
    (extrudeTile w ts tr tc buf).getD
        (get_pixel_index (tx + tc * (ts + 2)) (ty + tr * (ts + 2)) w) default =
      buf.getD (get_pixel_index (sx + tc * (ts + 2)) (sy + tr * (ts + 2)) w) default := by
  rw [extrudeTile_eq_foldl]
  have hop := opOf_eq ts w tr tc ty tx
  rw [hls] at hop
  dsimp only [Option.map_some'] at hop
  apply foldl_applyOp_lastWrite _ _ _ _ hj
  · apply lastWrite_eq_some
    · rw [← hop]
      exact opOf_mem_tileOps hty htx
    · intro op hmem g hg he
      obtain ⟨ty', tx', hty', htx', rfl⟩ := mem_tileOps_elim hmem
      have h1 := opOf_eq ts w tr tc ty' tx'
      rw [h1] at he
      dsimp only at he
      obtain ⟨_, _, h3, h4⟩ := target_coords_unique hcw htc hty' htx' htc hty htx he
      subst h3
      subst h4
      exact hop
  · intro op hmem g hg op' hmem' g' hg'
    obtain ⟨ty1, tx1, hty1, htx1, rfl⟩ := mem_tileOps_elim hmem
    obtain ⟨ty2, tx2, hty2, htx2, rfl⟩ := mem_tileOps_elim hmem'
    have e1 := opOf_eq ts w tr tc ty1 tx1
    have e2 := opOf_eq ts w tr tc ty2 tx2
    rw [e1] at hg
    rw [e2] at hg'
    dsimp only at hg hg'
    cases hls1 : localSource ts ty1 tx1 with
    | none =>
        rw [hls1] at hg
        simp at hg
    | some s1 =>
        obtain ⟨sy1, sx1⟩ := s1
        rw [hls1] at hg
        dsimp only [Option.map_some'] at hg
        injection hg with hg
        rw [e2]
        dsimp only
        intro he
        rw [← hg] at he
        obtain ⟨hb1, hb2⟩ := localSource_bounds hty1 htx1 hls1
        obtain ⟨_, _, hy2, hx2⟩ := target_coords_unique hcw htc hty2 htx2 htc hb1 hb2 he
        have hint := localSource_interior hts hty1 htx1 hls1
        subst hy2
        subst hx2
        rw [localSource_eq_none hint.1 hint.2.1 hint.2.2.1 hint.2.2.2] at hg'
        simp at hg'

theorem extrudePass_gutter {w ts rows cols tr tc ty tx sy sx : Nat} (buf : List RGBA)
    (hts : 1 ≤ ts) (hcw : cols * (ts + 2) ≤ w) (htr : tr < rows) (htc : tc < cols)
    (hty : ty < ts + 2) (htx : tx < ts + 2)
    (hls : localSource ts ty tx = some (sy, sx))
    (hj : get_pixel_index (tx + tc * (ts + 2)) (ty + tr * (ts + 2)) w < buf.length) :
    (extrudePass w ts rows cols buf).getD
        (get_pixel_index (tx + tc * (ts + 2)) (ty + tr * (ts + 2)) w) default =
      buf.getD (get_pixel_index (sx + tc * (ts + 2)) (sy + tr * (ts + 2)) w) default := by
  obtain ⟨bmid, hlen, hagree, heq⟩ :=
    extrudePass_getD_eq_tile buf hcw htr htc hty htx
  rw [heq]
  rw [extrudeTile_gutter bmid hts hcw htc hty htx hls (by rw [hlen]; exact hj)]
  obtain ⟨hb1, hb2⟩ := localSource_bounds hty htx hls
  exact hagree sy sx hb1 hb2

theorem extrudePass_frame {w ts rows cols x y : Nat} (buf : List RGBA)
    (hcw : cols * (ts + 2) ≤ w) (hx : x < w)
    (hng : ¬x < cols * (ts + 2) ∨ ¬y < rows * (ts + 2) ∨
      localSource ts (y % (ts + 2)) (x % (ts + 2)) = none) :
    (extrudePass w ts rows cols buf).getD (get_pixel_index x y w) default =
      buf.getD (get_pixel_index x y w) default := by
  rw [extrudePass_eq_foldl_tiles]
  have hgen : ∀ L : List (Nat × Nat), (∀ p ∈ L, p.1 < rows ∧ p.2 < cols) →
      ∀ b : List RGBA,
        (L.foldl (fun bb p => extrudeTile w ts p.1 p.2 bb) b).getD
            (get_pixel_index x y w) default =
          b.getD (get_pixel_index x y w) default := by
    intro L hL
    induction L with
    | nil => intro b; rfl
    | cons p L ih =>
        intro b
        rw [List.foldl_cons, ih (fun q hq => hL q (List.mem_cons_of_mem _ hq))]
        apply extrudeTile_frame
        intro ty tx hty htx f hf
        have h1 := opOf_eq ts w p.1 p.2 ty tx
        rw [h1] at hf
        rw [h1]
        dsimp only at hf ⊢
        intro htarget
        have hp := hL p (List.mem_cons_self _ _)
        have hxw : tx + p.2 * (ts + 2) < w := local_lt_width hcw hp.2 htx
        unfold get_pixel_index at htarget
        obtain ⟨hye, hxe⟩ := euclid_pair_unique hxw hx htarget
        rcases hng with hng | hng | hng
        · exact hng (by rw [← hxe]; exact local_lt_region hp.2 htx)
        · exact hng (by rw [← hye]; exact local_lt_region hp.1 hty)
        · rw [← hxe, ← hye, local_mod htx, local_mod hty] at hng
          rw [hng] at hf
          simp at hf
  exact hgen (tilePairs rows cols) (fun p hp => mem_tilePairs.mp hp) buf

theorem localSource_top_left (ts : Nat) : localSource ts 0 0 = some (1, 1) := rfl

theorem localSource_top_right (ts : Nat) : localSource ts 0 (ts + 1) = some (1, ts) := by
  simp [localSource]

theorem localSource_top_edge (ts lx : Nat) (h1 : 1 ≤ lx) (h2 : lx ≤ ts) :
    localSource ts 0 lx = some (1, lx) := by
  simp [localSource, show ¬lx = 0 by omega, show ¬lx = ts + 1 by omega]

theorem localSource_bottom_left (ts : Nat) : localSource ts (ts + 1) 0 = some (ts, 1) := by
  simp [localSource]

theorem localSource_bottom_right (ts : Nat) :
    localSource ts (ts + 1) (ts + 1) = some (ts, ts) := by
  simp [localSource]

theorem localSource_bottom_edge (ts lx : Nat) (h1 : 1 ≤ lx) (h2 : lx ≤ ts) :
    localSource ts (ts + 1) lx = some (ts, lx) := by
  simp [localSource, show ¬lx = 0 by omega, show ¬lx = ts + 1 by omega]

theorem localSource_left_edge (ts ly : Nat) (h1 : 1 ≤ ly) (h2 : ly ≤ ts) :
    localSource ts ly 0 = some (ly, 1) := by
  simp [localSource, show ¬ly = 0 by omega, show ¬ly = ts + 1 by omega]

theorem localSource_right_edge (ts ly : Nat) (h1 : 1 ≤ ly) (h2 : ly ≤ ts) :
    localSource ts ly (ts + 1) = some (ly, ts) := by
  simp [localSource, show ¬ly = 0 by omega, show ¬ly = ts + 1 by omega]

theorem gpi_lt {x y w h : Nat} (hx : x < w) (hy : y < h) :
    get_pixel_index x y w < w * h := by
  unfold get_pixel_index
  have h1 : (y + 1) * w = y * w + w := by ring
  have h2 : (y + 1) * w ≤ h * w := Nat.mul_le_mul_right _ hy
  have h3 : h * w = w * h := Nat.mul_comm h w
  omega

theorem region_index_lt {ts cols rows tr tc ty tx : Nat} (htr : tr < rows) (htc : tc < cols)
    (hty : ty < ts + 2) (htx : tx < ts + 2) :
    get_pixel_index (tx + tc * (ts + 2)) (ty + tr * (ts + 2)) (cols * (ts + 2)) <
      (cols * (ts + 2)) * (rows * (ts + 2)) := by
  exact gpi_lt (local_lt_region htc htx) (local_lt_region htr hty)

theorem claim1_corner_and_edge_laws (ts cols rows tr tc lx ly : Nat) (buf : List RGBA)
    (hts : 1 ≤ ts)
    (hlen : buf.length = (cols * (ts + 2)) * (rows * (ts + 2)))
    (htr : tr < rows) (htc : tc < cols)
    (hlx1 : 1 ≤ lx) (hlx2 : lx ≤ ts) (hly1 : 1 ≤ ly) (hly2 : ly ≤ ts) :
    ((extrudePass (cols * (ts + 2)) ts rows cols buf).getD
        (get_pixel_index (0 + tc * (ts + 2)) (0 + tr * (ts + 2)) (cols * (ts + 2))) default =
      buf.getD
        (get_pixel_index (1 + tc * (ts + 2)) (1 + tr * (ts + 2)) (cols * (ts + 2))) default) ∧
    ((extrudePass (cols * (ts + 2)) ts rows cols buf).getD
        (get_pixel_index (ts + 1 + tc * (ts + 2)) (0 + tr * (ts + 2)) (cols * (ts + 2))) default =
      buf.getD
        (get_pixel_index (ts + tc * (ts + 2)) (1 + tr * (ts + 2)) (cols * (ts + 2))) default) ∧
    ((extrudePass (cols * (ts + 2)) ts rows cols buf).getD
        (get_pixel_index (0 + tc * (ts + 2)) (ts + 1 + tr * (ts + 2)) (cols * (ts + 2))) default =
      buf.getD
        (get_pixel_index (1 + tc * (ts + 2)) (ts + tr * (ts + 2)) (cols * (ts + 2))) default) ∧
    ((extrudePass (cols * (ts + 2)) ts rows cols buf).getD
        (get_pixel_index (ts + 1 + tc * (ts + 2)) (ts + 1 + tr * (ts + 2)) (cols * (ts + 2))) default =
      buf.getD
        (get_pixel_index (ts + tc * (ts + 2)) (ts + tr * (ts + 2)) (cols * (ts + 2))) default) ∧
    ((extrudePass (cols * (ts + 2)) ts rows cols buf).getD
        (get_pixel_index (lx + tc * (ts + 2)) (0 + tr * (ts + 2)) (cols * (ts + 2))) default =
      buf.getD
        (get_pixel_index (lx + tc * (ts + 2)) (1 + tr * (ts + 2)) (cols * (ts + 2))) default) ∧
    ((extrudePass (cols * (ts + 2)) ts rows cols buf).getD
        (get_pixel_index (lx + tc * (ts + 2)) (ts + 1 + tr * (ts + 2)) (cols * (ts + 2))) default =
      buf.getD
        (get_pixel_index (lx + tc * (ts + 2)) (ts + tr * (ts + 2)) (cols * (ts + 2))) default) ∧
    ((extrudePass (cols * (ts + 2)) ts rows cols buf).getD
        (get_pixel_index (0 + tc * (ts + 2)) (ly + tr * (ts + 2)) (cols * (ts + 2))) default =
      buf.getD
        (get_pixel_index (1 + tc * (ts + 2)) (ly + tr * (ts + 2)) (cols * (ts + 2))) default) ∧
    ((extrudePass (cols * (ts + 2)) ts rows cols buf).getD
        (get_pixel_index (ts + 1 + tc * (ts + 2)) (ly + tr * (ts + 2)) (cols * (ts + 2))) default =
      buf.getD
        (get_pixel_index (ts + tc * (ts + 2)) (ly + tr * (ts + 2)) (cols * (ts + 2))) default) := by
  refine ⟨?_, ?_, ?_, ?_, ?_, ?_, ?_, ?_⟩
  · exact extrudePass_gutter buf hts (Nat.le_refl _) htr htc (by omega) (by omega)
      (localSource_top_left ts)
      (by rw [hlen]; exact region_index_lt htr htc (by omega) (by omega))
  · exact extrudePass_gutter buf hts (Nat.le_refl _) htr htc (by omega) (by omega)
      (localSource_top_right ts)
      (by rw [hlen]; exact region_index_lt htr htc (by omega) (by omega))
  · exact extrudePass_gutter buf hts (Nat.le_refl _) htr htc (by omega) (by omega)
      (localSource_bottom_left ts)
      (by rw [hlen]; exact region_index_lt htr htc (by omega) (by omega))
  · exact extrudePass_gutter buf hts (Nat.le_refl _) htr htc (by omega) (by omega)
      (localSource_bottom_right ts)
      (by rw [hlen]; exact region_index_lt htr htc (by omega) (by omega))
  · exact extrudePass_gutter buf hts (Nat.le_refl _) htr htc (by omega) (by omega)
      (localSource_top_edge ts lx hlx1 hlx2)
      (by rw [hlen]; exact region_index_lt htr htc (by omega) (by omega))
  · exact extrudePass_gutter buf hts (Nat.le_refl _) htr htc (by omega) (by omega)
      (localSource_bottom_edge ts lx hlx1 hlx2)
      (by rw [hlen]; exact region_index_lt htr htc (by omega) (by omega))
  · exact extrudePass_gutter buf hts (Nat.le_refl _) htr htc (by omega) (by omega)
      (localSource_left_edge ts ly hly1 hly2)
      (by rw [hlen]; exact region_index_lt htr htc (by omega) (by omega))
  · exact extrudePass_gutter buf hts (Nat.le_refl _) htr htc (by omega) (by omega)
      (localSource_right_edge ts ly hly1 hly2)
      (by rw [hlen]; exact region_index_lt htr htc (by omega) (by omega))

theorem claim4_frame_effect (ts w rows cols x y : Nat) (buf : List RGBA)
    (hcw : cols * (ts + 2) ≤ w) (hx : x < w)
    (h : (1 ≤ x % (ts + 2) ∧ x % (ts + 2) ≤ ts ∧ 1 ≤ y % (ts + 2) ∧ y % (ts + 2) ≤ ts) ∨
      cols * (ts + 2) ≤ x ∨ rows * (ts + 2) ≤ y) :
    (extrudePass w ts rows cols buf).getD (get_pixel_index x y w) default =
      buf.getD (get_pixel_index x y w) default := by
  apply extrudePass_frame buf hcw hx
  rcases h with ⟨h1, h2, h3, h4⟩ | h | h
  · exact Or.inr (Or.inr (localSource_eq_none h3 h4 h1 h2))
  · exact Or.inl (by omega)
  · exact Or.inr (Or.inl (by omega))

theorem claim5_extrusion_idempotent (ts cols rows : Nat) (buf : List RGBA)
    (hts : 1 ≤ ts)
    (hlen : buf.length = (cols * (ts + 2)) * (rows * (ts + 2))) :
    extrudePass (cols * (ts + 2)) ts rows cols
        (extrudePass (cols * (ts + 2)) ts rows cols buf) =
      extrudePass (cols * (ts + 2)) ts rows cols buf := by
  have hL1 : (extrudePass (cols * (ts + 2)) ts rows cols buf).length = buf.length :=
    length_extrudePass _ _ _ _ _
  have hL2 : (extrudePass (cols * (ts + 2)) ts rows cols
      (extrudePass (cols * (ts + 2)) ts rows cols buf)).length =
      (extrudePass (cols * (ts + 2)) ts rows cols buf).length :=
    length_extrudePass _ _ _ _ _
  apply List.ext_getElem hL2
  intro j hj1 hj2
  rw [← List.getD_eq_getElem _ default hj1, ← List.getD_eq_getElem _ default hj2]
  have hjlen : j < (cols * (ts + 2)) * (rows * (ts + 2)) := by
    rw [hL2, hL1, hlen] at hj1
    exact hj1
  have hwpos : 0 < cols * (ts + 2) := by
    rcases Nat.eq_zero_or_pos (cols * (ts + 2)) with h0 | h0
    · rw [h0] at hjlen
      simp at hjlen
    · exact h0
  have hspos : 0 < ts + 2 := by omega
  have hxw : j % (cols * (ts + 2)) < cols * (ts + 2) := Nat.mod_lt _ hwpos
  have hyh : j / (cols * (ts + 2)) < rows * (ts + 2) := by
    rw [Nat.div_lt_iff_lt_mul hwpos]
    have := Nat.mul_comm (cols * (ts + 2)) (rows * (ts + 2))
    omega
  have hjdm := Nat.div_add_mod j (cols * (ts + 2))
  have hlx : j % (cols * (ts + 2)) % (ts + 2) < ts + 2 := Nat.mod_lt _ hspos
  have hly : j / (cols * (ts + 2)) % (ts + 2) < ts + 2 := Nat.mod_lt _ hspos
  have htc : j % (cols * (ts + 2)) / (ts + 2) < cols := by
    rw [Nat.div_lt_iff_lt_mul hspos]
    exact hxw
  have htr : j / (cols * (ts + 2)) / (ts + 2) < rows := by
    rw [Nat.div_lt_iff_lt_mul hspos]
    exact hyh
  have hxdm := Nat.div_add_mod (j % (cols * (ts + 2))) (ts + 2)
  have hydm := Nat.div_add_mod (j / (cols * (ts + 2))) (ts + 2)
  have hcx : (ts + 2) * (j % (cols * (ts + 2)) / (ts + 2)) =
      (j % (cols * (ts + 2)) / (ts + 2)) * (ts + 2) := Nat.mul_comm _ _
  have hcy : (ts + 2) * (j / (cols * (ts + 2)) / (ts + 2)) =
      (j / (cols * (ts + 2)) / (ts + 2)) * (ts + 2) := Nat.mul_comm _ _
  have hjgpi : get_pixel_index
      (j % (cols * (ts + 2)) % (ts + 2) + j % (cols * (ts + 2)) / (ts + 2) * (ts + 2))
      (j / (cols * (ts + 2)) % (ts + 2) + j / (cols * (ts + 2)) / (ts + 2) * (ts + 2))
      (cols * (ts + 2)) = j := by
    unfold get_pixel_index
    have hxeq : j % (cols * (ts + 2)) % (ts + 2) +
        j % (cols * (ts + 2)) / (ts + 2) * (ts + 2) = j % (cols * (ts + 2)) := by omega
    have hyeq : j / (cols * (ts + 2)) % (ts + 2) +
        j / (cols * (ts + 2)) / (ts + 2) * (ts + 2) = j / (cols * (ts + 2)) := by omega
    rw [hxeq, hyeq]
    have := Nat.mul_comm (cols * (ts + 2)) (j / (cols * (ts + 2)))
    omega
  rw [← hjgpi]
  cases hls : localSource ts (j / (cols * (ts + 2)) % (ts + 2))
      (j % (cols * (ts + 2)) % (ts + 2)) with
  | none =>
      rw [extrudePass_frame (extrudePass (cols * (ts + 2)) ts rows cols buf)
        (Nat.le_refl _) (by omega : j % (cols * (ts + 2)) % (ts + 2) +
          j % (cols * (ts + 2)) / (ts + 2) * (ts + 2) < cols * (ts + 2))]
      right
      right
      rw [local_mod hlx, local_mod hly]
      exact hls
  | some s =>
      obtain ⟨sy, sx⟩ := s
      have hsb := localSource_bounds hly hlx hls
      have hsint := localSource_interior hts hly hlx hls
      rw [extrudePass_gutter (extrudePass (cols * (ts + 2)) ts rows cols buf) hts
        (Nat.le_refl _) htr htc hly hlx hls
        (by rw [hL1, hlen]; exact region_index_lt htr htc hly hlx)]
      rw [extrudePass_gutter buf hts (Nat.le_refl _) htr htc hly hlx hls
        (by rw [hlen]; exact region_index_lt htr htc hly hlx)]
      apply extrudePass_frame buf (Nat.le_refl _)
        (local_lt_region htc hsb.2)
      right
      right
      rw [local_mod hsb.2, local_mod hsb.1]
      exact localSource_eq_none hsint.1 hsint.2.1 hsint.2.2.1 hsint.2.2.2

theorem tileOps_bounds {ts w h cols rows : Nat}
    (hcw : cols * (ts + 2) ≤ w) (hrh : rows * (ts + 2) ≤ h) :
    ∀ p ∈ tilePairs rows cols, ∀ op ∈ tileOps ts w p.1 p.2,
      ∀ a ∈ opTargets op, a < w * h := by
  intro p hp op hop a ha
  obtain ⟨hpr, hpc⟩ := mem_tilePairs.mp hp
  obtain ⟨ty, tx, hty, htx, rfl⟩ := mem_tileOps_elim hop
  rw [opOf_eq] at ha
  unfold opTargets at ha
  dsimp only at ha
  rcases List.mem_cons.mp ha with rfl | ha
  · exact gpi_lt (lt_of_lt_of_le (local_lt_region hpc htx) hcw)
      (lt_of_lt_of_le (local_lt_region hpr hty) hrh)
  · cases hls : localSource ts ty tx with
    | none =>
        rw [hls] at ha
        simp at ha
    | some s =>
        obtain ⟨sy, sx⟩ := s
        rw [hls] at ha
        simp at ha
        subst ha
        obtain ⟨hb1, hb2⟩ := localSource_bounds hty htx hls
        exact gpi_lt (lt_of_lt_of_le (local_lt_region hpc hb2) hcw)
          (lt_of_lt_of_le (local_lt_region hpr hb1) hrh)

theorem claim9_no_oob_no_underflow (ts cols rows : Nat) (hts : 1 ≤ ts) :
    (∀ p ∈ tilePairs rows cols, ∀ op ∈ tileOps ts (cols * (ts + 2)) p.1 p.2,
      ∀ a ∈ opTargets op, a < (cols * (ts + 2)) * (rows * (ts + 2))) ∧
    (∀ p ∈ tilePairs rows cols, ∀ ty ∈ List.range (ts + 2), ∀ tx ∈ List.range (ts + 2),
      (tx = ts + 2 - 1 → 1 ≤ tx + p.2 * (ts + 2)) ∧
      (ty = ts + 2 - 1 → 1 ≤ ty + p.1 * (ts + 2))) := by
  constructor
  · exact tileOps_bounds (Nat.le_refl _) (Nat.le_refl _)
  · intro p _ ty _ tx _
    constructor
    · intro h
      omega
    · intro h
      omega

theorem extrudeTile_ts0_eq (w tr tc : Nat) (b : List RGBA) :
    extrudeTile w 0 tr tc b =
      applyOp (applyOp (applyOp (applyOp b (opOf 0 w tr tc 0 0)) (opOf 0 w tr tc 0 1))
        (opOf 0 w tr tc 1 0)) (opOf 0 w tr tc 1 1) := by
  rfl

theorem opOf_ts0_00 (w tr tc : Nat) : opOf 0 w tr tc 0 0 =
    (get_pixel_index (tc * 2) (tr * 2) w,
      some (get_pixel_index (tc * 2 + 1) (tr * 2 + 1) w)) := by
  simp [opOf, get_pixel_index]

theorem opOf_ts0_01 (w tr tc : Nat) : opOf 0 w tr tc 0 1 =
    (get_pixel_index (tc * 2 + 1) (tr * 2) w,
      some (get_pixel_index (tc * 2) (tr * 2 + 1) w)) := by
  simp [opOf, get_pixel_index]
  omega

theorem opOf_ts0_10 (w tr tc : Nat) : opOf 0 w tr tc 1 0 =
    (get_pixel_index (tc * 2) (tr * 2 + 1) w,
      some (get_pixel_index (tc * 2 + 1) (tr * 2) w)) := by
  simp [opOf, get_pixel_index]
  omega

theorem opOf_ts0_11 (w tr tc : Nat) : opOf 0 w tr tc 1 1 =
    (get_pixel_index (tc * 2 + 1) (tr * 2 + 1) w,
      some (get_pixel_index (tc * 2) (tr * 2) w)) := by
  simp [opOf, get_pixel_index]
  ring

theorem applyOp_some (b : List RGBA) (t f : Nat) :
    applyOp b (t, some f) = b.set t (b.getD f default) := rfl

theorem extrudeTile_ts0_values {w cols tr tc : Nat} (b : List RGBA)
    (hcw : cols * 2 ≤ w) (htc : tc < cols)
    (hlen11 : get_pixel_index (tc * 2 + 1) (tr * 2 + 1) w < b.length) :
    ((extrudeTile w 0 tr tc b).getD (get_pixel_index (tc * 2) (tr * 2) w) default =
        b.getD (get_pixel_index (tc * 2 + 1) (tr * 2 + 1) w) default) ∧
      ((extrudeTile w 0 tr tc b).getD (get_pixel_index (tc * 2 + 1) (tr * 2) w) default =
        b.getD (get_pixel_index (tc * 2) (tr * 2 + 1) w) default) ∧
      ((extrudeTile w 0 tr tc b).getD (get_pixel_index (tc * 2) (tr * 2 + 1) w) default =
        b.getD (get_pixel_index (tc * 2) (tr * 2 + 1) w) default) ∧
      ((extrudeTile w 0 tr tc b).getD (get_pixel_index (tc * 2 + 1) (tr * 2 + 1) w) default =
        b.getD (get_pixel_index (tc * 2 + 1) (tr * 2 + 1) w) default) := by
  have e : (tr * 2 + 1) * w = tr * 2 * w + w := by ring
  have hw2 : 2 ≤ w := by omega
  rw [extrudeTile_ts0_eq, opOf_ts0_00, opOf_ts0_01, opOf_ts0_10, opOf_ts0_11,
    applyOp_some, applyOp_some, applyOp_some, applyOp_some]
  simp only [get_pixel_index] at hlen11 ⊢
  refine ⟨?_, ?_, ?_, ?_⟩
  · rw [getD_set_ne _ _ _ _
      (show (tr * 2 + 1) * w + (tc * 2 + 1) ≠ tr * 2 * w + tc * 2 by omega)]
    rw [getD_set_ne _ _ _ _
      (show (tr * 2 + 1) * w + tc * 2 ≠ tr * 2 * w + tc * 2 by omega)]
    rw [getD_set_ne _ _ _ _
      (show tr * 2 * w + (tc * 2 + 1) ≠ tr * 2 * w + tc * 2 by omega)]
    rw [getD_set_self _ _ _ (by omega : tr * 2 * w + tc * 2 < b.length)]
  · rw [getD_set_ne _ _ _ _
      (show (tr * 2 + 1) * w + (tc * 2 + 1) ≠ tr * 2 * w + (tc * 2 + 1) by omega)]
    rw [getD_set_ne _ _ _ _
      (show (tr * 2 + 1) * w + tc * 2 ≠ tr * 2 * w + (tc * 2 + 1) by omega)]
    rw [getD_set_self _ _ _
      (by rw [List.length_set]; omega : tr * 2 * w + (tc * 2 + 1) <
        (b.set (tr * 2 * w + tc * 2)
          (b.getD ((tr * 2 + 1) * w + (tc * 2 + 1)) default)).length)]
    rw [getD_set_ne _ _ _ _
      (show tr * 2 * w + tc * 2 ≠ (tr * 2 + 1) * w + tc * 2 by omega)]
  · rw [getD_set_ne _ _ _ _
      (show (tr * 2 + 1) * w + (tc * 2 + 1) ≠ (tr * 2 + 1) * w + tc * 2 by omega)]
    rw [getD_set_self _ _ _
      (by rw [List.length_set, List.length_set]; omega : (tr * 2 + 1) * w + tc * 2 <
        ((b.set (tr * 2 * w + tc * 2)
            (b.getD ((tr * 2 + 1) * w + (tc * 2 + 1)) default)).set
          (tr * 2 * w + (tc * 2 + 1))
          ((b.set (tr * 2 * w + tc * 2)
              (b.getD ((tr * 2 + 1) * w + (tc * 2 + 1)) default)).getD
            ((tr * 2 + 1) * w + tc * 2) default)).length)]
    rw [getD_set_self _ _ _
      (by rw [List.length_set]; omega : tr * 2 * w + (tc * 2 + 1) <
        (b.set (tr * 2 * w + tc * 2)
          (b.getD ((tr * 2 + 1) * w + (tc * 2 + 1)) default)).length)]
    rw [getD_set_ne _ _ _ _
      (show tr * 2 * w + tc * 2 ≠ (tr * 2 + 1) * w + tc * 2 by omega)]
  · rw [getD_set_self _ _ _
      (by rw [List.length_set, List.length_set, List.length_set]; omega :
        (tr * 2 + 1) * w + (tc * 2 + 1) <
        (((b.set (tr * 2 * w + tc * 2)
              (b.getD ((tr * 2 + 1) * w + (tc * 2 + 1)) default)).set
            (tr * 2 * w + (tc * 2 + 1))
            ((b.set (tr * 2 * w + tc * 2)
                (b.getD ((tr * 2 + 1) * w + (tc * 2 + 1)) default)).getD
              ((tr * 2 + 1) * w + tc * 2) default)).set
          ((tr * 2 + 1) * w + tc * 2) _).length)]
    rw [getD_set_ne _ _ _ _
      (show (tr * 2 + 1) * w + tc * 2 ≠ tr * 2 * w + tc * 2 by omega)]
    rw [getD_set_ne _ _ _ _
      (show tr * 2 * w + (tc * 2 + 1) ≠ tr * 2 * w + tc * 2 by omega)]
    rw [getD_set_self _ _ _ (by omega : tr * 2 * w + tc * 2 < b.length)]

theorem claim7_ts0_tile_pattern (cols rows tr tc : Nat) (buf : List RGBA)
    (hlen : buf.length = (cols * 2) * (rows * 2))
    (htr : tr < rows) (htc : tc < cols) :
    ((extrudePass (cols * 2) 0 rows cols buf).getD
        (get_pixel_index (tc * 2) (tr * 2) (cols * 2)) default =
      buf.getD (get_pixel_index (tc * 2 + 1) (tr * 2 + 1) (cols * 2)) default) ∧
    ((extrudePass (cols * 2) 0 rows cols buf).getD
        (get_pixel_index (tc * 2 + 1) (tr * 2) (cols * 2)) default =
      buf.getD (get_pixel_index (tc * 2) (tr * 2 + 1) (cols * 2)) default) ∧
    ((extrudePass (cols * 2) 0 rows cols buf).getD
        (get_pixel_index (tc * 2) (tr * 2 + 1) (cols * 2)) default =
      buf.getD (get_pixel_index (tc * 2) (tr * 2 + 1) (cols * 2)) default) ∧
    ((extrudePass (cols * 2) 0 rows cols buf).getD
        (get_pixel_index (tc * 2 + 1) (tr * 2 + 1) (cols * 2)) default =
      buf.getD (get_pixel_index (tc * 2 + 1) (tr * 2 + 1) (cols * 2)) default) ∧
    (∀ p ∈ tilePairs rows cols, ∀ op ∈ tileOps 0 (cols * 2) p.1 p.2,
      ∀ a ∈ opTargets op, a < buf.length) := by
  have hlen11 : ∀ bmid : List RGBA, bmid.length = buf.length →
      get_pixel_index (tc * 2 + 1) (tr * 2 + 1) (cols * 2) < bmid.length := by
    intro bmid hb
    rw [hb, hlen]
    exact gpi_lt (by omega) (by omega)
  refine ⟨?_, ?_, ?_, ?_, ?_⟩
  · obtain ⟨bmid, hblen, hagree, heq⟩ :=
      @extrudePass_getD_eq_tile (cols * 2) 0 rows cols tr tc buf (by omega) htr htc
        0 0 (by omega) (by omega)
    have hc0 : get_pixel_index (0 + tc * (0 + 2)) (0 + tr * (0 + 2)) (cols * 2) =
        get_pixel_index (tc * 2) (tr * 2) (cols * 2) :=
      gpi_congr _ _ _ _ _ (by omega) (by omega)
    rw [hc0] at heq
    have hv := (extrudeTile_ts0_values bmid (by omega) htc (hlen11 bmid hblen)).1
    have ha := hagree 1 1 (by omega) (by omega)
    have hc1 : get_pixel_index (1 + tc * (0 + 2)) (1 + tr * (0 + 2)) (cols * 2) =
        get_pixel_index (tc * 2 + 1) (tr * 2 + 1) (cols * 2) :=
      gpi_congr _ _ _ _ _ (by omega) (by omega)
    rw [hc1] at ha
    exact heq.trans (hv.trans ha)
  · obtain ⟨bmid, hblen, hagree, heq⟩ :=
      @extrudePass_getD_eq_tile (cols * 2) 0 rows cols tr tc buf (by omega) htr htc
        0 1 (by omega) (by omega)
    have hc0 : get_pixel_index (1 + tc * (0 + 2)) (0 + tr * (0 + 2)) (cols * 2) =
        get_pixel_index (tc * 2 + 1) (tr * 2) (cols * 2) :=
      gpi_congr _ _ _ _ _ (by omega) (by omega)
    rw [hc0] at heq
    have hv := (extrudeTile_ts0_values bmid (by omega) htc (hlen11 bmid hblen)).2.1
    have ha := hagree 1 0 (by omega) (by omega)
    have hc1 : get_pixel_index (0 + tc * (0 + 2)) (1 + tr * (0 + 2)) (cols * 2) =
        get_pixel_index (tc * 2) (tr * 2 + 1) (cols * 2) :=
      gpi_congr _ _ _ _ _ (by omega) (by omega)
    rw [hc1] at ha
    exact heq.trans (hv.trans ha)
  · obtain ⟨bmid, hblen, hagree, heq⟩ :=
      @extrudePass_getD_eq_tile (cols * 2) 0 rows cols tr tc buf (by omega) htr htc
        1 0 (by omega) (by omega)
    have hc0 : get_pixel_index (0 + tc * (0 + 2)) (1 + tr * (0 + 2)) (cols * 2) =
        get_pixel_index (tc * 2) (tr * 2 + 1) (cols * 2) :=
      gpi_congr _ _ _ _ _ (by omega) (by omega)
    rw [hc0] at heq
    have hv := (extrudeTile_ts0_values bmid (by omega) htc (hlen11 bmid hblen)).2.2.1
    have ha := hagree 1 0 (by omega) (by omega)
    rw [hc0] at ha
    exact heq.trans (hv.trans ha)
  · obtain ⟨bmid, hblen, hagree, heq⟩ :=
      @extrudePass_getD_eq_tile (cols * 2) 0 rows cols tr tc buf (by omega) htr htc
        1 1 (by omega) (by omega)
    have hc0 : get_pixel_index (1 + tc * (0 + 2)) (1 + tr * (0 + 2)) (cols * 2) =
        get_pixel_index (tc * 2 + 1) (tr * 2 + 1) (cols * 2) :=
      gpi_congr _ _ _ _ _ (by omega) (by omega)
    rw [hc0] at heq
    have hv := (extrudeTile_ts0_values bmid (by omega) htc (hlen11 bmid hblen)).2.2.2
    have ha := hagree 1 1 (by omega) (by omega)
    rw [hc0] at ha
    exact heq.trans (hv.trans ha)
  · rw [hlen]
    exact tileOps_bounds (by omega) (by omega)

theorem main_loop_fold (runOne : Nat → Except String Unit) (l : List Nat)
    (acc : List Nat × List String) :
    l.foldl
        (fun acc i =>
          (acc.1 ++ [i],
            match runOne i with
            | Except.error e => acc.2 ++ [e]
            | Except.ok _ => acc.2))
        acc =
      (acc.1 ++ l,
        acc.2 ++ l.filterMap
          (fun i =>
            match runOne i with
            | Except.error e => some e
            | Except.ok _ => none)) := by
  induction l generalizing acc with
  | nil => simp
  | cons a l ih =>
      rw [List.foldl_cons, ih]
      cases h : runOne a <;> simp [h]

theorem claim8_batch_continues (n : Nat) (runOne : Nat → Except String Unit)
    (i : Nat) (e : String) (hi : i < n) (he : runOne i = Except.error e) :
    (main_loop n runOne).1 = List.range n ∧
      e ∈ (main_loop n runOne).2 ∧
      ∀ j, j < n → j ∈ (main_loop n runOne).1 := by
  unfold main_loop
  rw [main_loop_fold]
  refine ⟨by simp, ?_, ?_⟩
  · simp only [List.nil_append]
    rw [List.mem_filterMap]
    exact ⟨i, List.mem_range.mpr hi, by rw [he]⟩
  · intro j hj
    simp [List.mem_range, hj]

theorem claim10_tile_size_zero_accepted_but_fatal :
    parse_args [r"--tile-size", r"0", r"in.png"] =
        Except.ok ⟨0, emptyString, true, [r"in.png"]⟩ ∧
      ∀ (w h : Nat) (buf : List RGBA), process_buffer 0 w h buf = none := by
  constructor
  · rfl
  · intro w h buf
    rfl

theorem claim6_truncation_aborts (buf : List RGBA) (hlen : buf.length = 9) :
    3 / 2 = 1 ∧ 3 % 2 ≠ 0 ∧ process_buffer 2 3 3 buf = none := by
  refine ⟨rfl, by decide, ?_⟩
  have hst := (resize_fold_stats 3 2 (3 + 3 / 2 * 2) 9 buf 0).1
  have h2 : (resizePass 3 2 buf).2 = 32 := by
    simp only [resizePass, hlen, insert_pixels_replicate]
    rw [hst]
    decide
  have hcond : resizeChecked 3 3 2 buf = none := by
    simp only [resizeChecked]
    split
    · rename_i hcc
      rw [h2] at hcc
      exact absurd hcc.1 (by decide)
    · rfl
  simp [process_buffer, hcond]

theorem claim6_truncation_aborts_witness :
    3 / 2 = 1 ∧ 3 % 2 ≠ 0 ∧ process_buffer 2 3 3 (natPixels 9) = none :=
  claim6_truncation_aborts (natPixels 9) (by decide)

theorem claim6_counterexample :
    ¬(3 % 2 = 0) ∧ process_buffer 2 3 3 (natPixels 9) = none := by
  constructor
  · decide
  · decide

theorem claim1_corner_and_edge_laws_witness :
    ((extrudePass (2 * (1 + 2)) 1 1 2 (natPixels 18)).getD
        (get_pixel_index (0 + 1 * (1 + 2)) (0 + 0 * (1 + 2)) (2 * (1 + 2))) default =
      (natPixels 18).getD
        (get_pixel_index (1 + 1 * (1 + 2)) (1 + 0 * (1 + 2)) (2 * (1 + 2))) default) ∧
    ((extrudePass (2 * (1 + 2)) 1 1 2 (natPixels 18)).getD
        (get_pixel_index (1 + 1 + 1 * (1 + 2)) (0 + 0 * (1 + 2)) (2 * (1 + 2))) default =
      (natPixels 18).getD
        (get_pixel_index (1 + 1 * (1 + 2)) (1 + 0 * (1 + 2)) (2 * (1 + 2))) default) ∧
    ((extrudePass (2 * (1 + 2)) 1 1 2 (natPixels 18)).getD
        (get_pixel_index (0 + 1 * (1 + 2)) (1 + 1 + 0 * (1 + 2)) (2 * (1 + 2))) default =
      (natPixels 18).getD
        (get_pixel_index (1 + 1 * (1 + 2)) (1 + 0 * (1 + 2)) (2 * (1 + 2))) default) ∧
    ((extrudePass (2 * (1 + 2)) 1 1 2 (natPixels 18)).getD
        (get_pixel_index (1 + 1 + 1 * (1 + 2)) (1 + 1 + 0 * (1 + 2)) (2 * (1 + 2))) default =
      (natPixels 18).getD
        (get_pixel_index (1 + 1 * (1 + 2)) (1 + 0 * (1 + 2)) (2 * (1 + 2))) default) ∧
    ((extrudePass (2 * (1 + 2)) 1 1 2 (natPixels 18)).getD
        (get_pixel_index (1 + 1 * (1 + 2)) (0 + 0 * (1 + 2)) (2 * (1 + 2))) default =
      (natPixels 18).getD
        (get_pixel_index (1 + 1 * (1 + 2)) (1 + 0 * (1 + 2)) (2 * (1 + 2))) default) ∧
    ((extrudePass (2 * (1 + 2)) 1 1 2 (natPixels 18)).getD
        (get_pixel_index (1 + 1 * (1 + 2)) (1 + 1 + 0 * (1 + 2)) (2 * (1 + 2))) default =
      (natPixels 18).getD
        (get_pixel_index (1 + 1 * (1 + 2)) (1 + 0 * (1 + 2)) (2 * (1 + 2))) default) ∧
    ((extrudePass (2 * (1 + 2)) 1 1 2 (natPixels 18)).getD
        (get_pixel_index (0 + 1 * (1 + 2)) (1 + 0 * (1 + 2)) (2 * (1 + 2))) default =
      (natPixels 18).getD
        (get_pixel_index (1 + 1 * (1 + 2)) (1 + 0 * (1 + 2)) (2 * (1 + 2))) default) ∧
    ((extrudePass (2 * (1 + 2)) 1 1 2 (natPixels 18)).getD
        (get_pixel_index (1 + 1 + 1 * (1 + 2)) (1 + 0 * (1 + 2)) (2 * (1 + 2))) default =
      (natPixels 18).getD
        (get_pixel_index (1 + 1 * (1 + 2)) (1 + 0 * (1 + 2)) (2 * (1 + 2))) default) :=
  claim1_corner_and_edge_laws 1 2 1 0 1 1 1 (natPixels 18) (by decide) (by decide)
    (by decide) (by decide) (by decide) (by decide) (by decide) (by decide)

theorem claim2_resize_length_invariant_witness :
    (resizePass (2 * 2) 2 (natPixels 8)).2 = (2 * 2 + 2 * 2) * 1 * 2 + 1 * 2 * 2 * 2 ∧
      (resizePass (2 * 2) 2 (natPixels 8)).1.length % (2 * 2 + 2 * 2) = 0 ∧
      (resizePass (2 * 2) 2 (natPixels 8)).1.length = (2 * 2 + 2 * 2) * (1 * 2 + 1 * 2) :=
  claim2_resize_length_invariant 2 2 1 (natPixels 8) (by decide) (by decide)
    (by decide) (by decide)

theorem claim2_counterexample :
    ¬((resizePass 1 1 ([] : List RGBA)).2 =
        (1 + 1 / 1 * 2) * (0 / 1) * 2 + (0 / 1) * 1 * (1 / 1) * 2 ∧
      (resizePass 1 1 ([] : List RGBA)).1.length % (1 + 1 / 1 * 2) = 0 ∧
      (resizePass 1 1 ([] : List RGBA)).1.length =
        (1 + 1 / 1 * 2) * (0 + (0 / 1) * 2)) := by
  decide

theorem claim4_frame_effect_witness :
    (extrudePass 7 1 1 2 (natPixels 21)).getD (get_pixel_index 4 1 7) default =
      (natPixels 21).getD (get_pixel_index 4 1 7) default :=
  claim4_frame_effect 1 7 1 2 4 1 (natPixels 21) (by decide) (by decide)
    (Or.inl (by decide))

theorem claim5_extrusion_idempotent_witness :
    extrudePass (1 * (1 + 2)) 1 1 1
        (extrudePass (1 * (1 + 2)) 1 1 1 (natPixels 9)) =
      extrudePass (1 * (1 + 2)) 1 1 1 (natPixels 9) :=
  claim5_extrusion_idempotent 1 1 1 (natPixels 9) (by decide) (by decide)

theorem claim7_ts0_tile_pattern_witness :
    ((extrudePass (1 * 2) 0 1 1 (natPixels 4)).getD
        (get_pixel_index (0 * 2) (0 * 2) (1 * 2)) default =
      (natPixels 4).getD (get_pixel_index (0 * 2 + 1) (0 * 2 + 1) (1 * 2)) default) ∧
    ((extrudePass (1 * 2) 0 1 1 (natPixels 4)).getD
        (get_pixel_index (0 * 2 + 1) (0 * 2) (1 * 2)) default =
      (natPixels 4).getD (get_pixel_index (0 * 2) (0 * 2 + 1) (1 * 2)) default) ∧
    ((extrudePass (1 * 2) 0 1 1 (natPixels 4)).getD
        (get_pixel_index (0 * 2) (0 * 2 + 1) (1 * 2)) default =
      (natPixels 4).getD (get_pixel_index (0 * 2) (0 * 2 + 1) (1 * 2)) default) ∧
    ((extrudePass (1 * 2) 0 1 1 (natPixels 4)).getD
        (get_pixel_index (0 * 2 + 1) (0 * 2 + 1) (1 * 2)) default =
      (natPixels 4).getD (get_pixel_index (0 * 2 + 1) (0 * 2 + 1) (1 * 2)) default) ∧
    (∀ p ∈ tilePairs 1 1, ∀ op ∈ tileOps 0 (1 * 2) p.1 p.2,
      ∀ a ∈ opTargets op, a < (natPixels 4).length) :=
  claim7_ts0_tile_pattern 1 1 0 0 (natPixels 4) (by decide) (by decide) (by decide)

theorem claim7_counterexample :
    ¬(((extrudePass 2 0 1 1 (natPixels 4)).getD 0 default =
        (extrudePass 2 0 1 1 (natPixels 4)).getD 1 default) ∧
      ((extrudePass 2 0 1 1 (natPixels 4)).getD 1 default =
        (extrudePass 2 0 1 1 (natPixels 4)).getD 2 default) ∧
      ((extrudePass 2 0 1 1 (natPixels 4)).getD 2 default =
        (extrudePass 2 0 1 1 (natPixels 4)).getD 3 default)) := by
  decide

theorem claim8_batch_continues_witness :
    (main_loop 2 (fun i => if i = 0 then Except.error (r"boom") else Except.ok ())).1 =
        List.range 2 ∧
      (r"boom") ∈
        (main_loop 2 (fun i => if i = 0 then Except.error (r"boom") else Except.ok ())).2 ∧
      ∀ j, j < 2 →
        j ∈ (main_loop 2 (fun i => if i = 0 then Except.error (r"boom") else Except.ok ())).1 :=
  claim8_batch_continues 2 (fun i => if i = 0 then Except.error (r"boom") else Except.ok ())
    0 (r"boom") (by decide) (by rfl)

theorem claim9_no_oob_no_underflow_witness :
    (∀ p ∈ tilePairs 1 2, ∀ op ∈ tileOps 1 (2 * (1 + 2)) p.1 p.2,
      ∀ a ∈ opTargets op, a < (2 * (1 + 2)) * (1 * (1 + 2))) ∧
    (∀ p ∈ tilePairs 1 2, ∀ ty ∈ List.range (1 + 2), ∀ tx ∈ List.range (1 + 2),
      (tx = 1 + 2 - 1 → 1 ≤ tx + p.2 * (1 + 2)) ∧
      (ty = 1 + 2 - 1 → 1 ≤ ty + p.1 * (1 + 2))) :=
  claim9_no_oob_no_underflow 1 2 1 (by decide)

